import Mathlib

/-
Verification development for the aoj-verify repository (Go).

The verification engine lives in the main package: the function verify builds
the solution with the Go toolchain, discovers cached test-case input files,
runs the built binary on each case, classifies the outcome, and prints a
summary. Go strings are byte slices, so paths and names are modelled as lists
of bytes (List Nat); time.Duration values produced by the stopwatch are
modelled as natural numbers of nanoseconds. Every external effect the engine
performs (os.MkdirTemp, go build, filepath.WalkDir, os.Open, os.Create,
running the binary, filesAreEqual) is modelled by an environment record that
fixes the outcome of each effect, and verify is re-expressed as a pure
function of that environment. A trace of emitted events records which
effects actually happen on a given run.
-/

namespace AojVerify

/-- Go strings are byte slices; a path or a name is a list of bytes. -/
abbrev GoStr := List Nat

/-- The byte string ".in", the input-file name ending checked by the walk callback. -/
def dotIn : GoStr := [46, 105, 110]

/-- The byte string ".aoj-verify", the fixed relative parent directory passed to os.MkdirTemp. -/
def aojVerifyDir : GoStr := [46, 97, 111, 106, 45, 118, 101, 114, 105, 102, 121]

/-- strings.HasSuffix: tests whether the byte string s ends with sfx. -/
def hasSuffix (s sfx : GoStr) : Bool := List.isSuffixOf sfx s

/-- strings.TrimSuffix: returns s without the trailing sfx when present, otherwise s unchanged. -/
def trimSuffix (s sfx : GoStr) : GoStr :=
  if hasSuffix s sfx then s.take (s.length - sfx.length) else s

/-- The runStatus enumeration of the source: unknown is the zero value, followed by
accepted, wrongAnswer, runtimeError and timeLimitExceeded. -/
inductive runStatus where
  | unknown
  | accepted
  | wrongAnswer
  | runtimeError
  | timeLimitExceeded
deriving DecidableEq, Repr

/-- The runResult record of the source: a test-case name, a verdict and an elapsed duration. -/
structure runResult where
  testcaseName : GoStr
  status : runStatus
  execTime : Nat
deriving DecidableEq, Repr

/-- The newRunResult constructor of the source. -/
def newRunResult (testcaseName : GoStr) (status : runStatus) (execTime : Nat) : runResult :=
  ⟨testcaseName, status, execTime⟩

/-- The per-case infrastructure errors verify accumulates into multiErr:
failure to open the .in file, failure to create the scratch answer file,
or an I/O failure inside filesAreEqual. -/
inductive caseErr where
  | readInFailed (path : GoStr)
  | createAnswerFailed (path : GoStr)
  | compareFailed (path : GoStr)
deriving DecidableEq, Repr

/-- The errors verify can return: os.MkdirTemp failure, go build failure with the
run error and the captured standard-error diagnostics, filepath.WalkDir failure,
and the combined per-case error list joined at the end of the run loop. -/
inductive verifyErr where
  | mkdirTempFailed
  | buildFailed (errMsg stderr : GoStr)
  | walkFailed
  | runCaseFailed (errs : List caseErr)
deriving DecidableEq, Repr

instance {ε α : Type} [DecidableEq ε] [DecidableEq α] : DecidableEq (Except ε α) := fun a b =>
  match a, b with
  | Except.error e, Except.error f =>
    if h : e = f then isTrue (by rw [h]) else isFalse (fun hh => by cases hh; exact h rfl)
  | Except.error _, Except.ok _ => isFalse (fun hh => by cases hh)
  | Except.ok _, Except.error _ => isFalse (fun hh => by cases hh)
  | Except.ok x, Except.ok y =>
    if h : x = y then isTrue (by rw [h]) else isFalse (fun hh => by cases hh; exact h rfl)

/-- The environment of one loop iteration: the outcome of each external effect the
iteration performs for a given input path. openOk is whether os.Open succeeds on the
input file, createOk whether os.Create succeeds on the scratch answer file, runOk
whether runCmd.Run returns nil, elapsed the stopwatch reading, and compareResult the
outcome of filesAreEqual on the answer file and the expected .out file. -/
structure caseBehavior where
  openOk : Bool
  createOk : Bool
  runOk : Bool
  elapsed : Nat
  compareResult : Except Unit Bool
deriving DecidableEq, Repr

/-- One iteration of the run loop of verify for input path p: open the input file,
create the scratch answer file, run the binary, and either record a verdict or
produce the per-case error that verify joins into multiErr. The recorded name is
base, computed by strings.TrimSuffix on the full input path. -/
def runCase (p : GoStr) (b : caseBehavior) : Except caseErr runResult :=
  let base := trimSuffix p dotIn
  if b.openOk = false then Except.error (caseErr.readInFailed p)
  else if b.createOk = false then Except.error (caseErr.createAnswerFailed p)
  else if b.runOk = false then Except.ok (newRunResult base runStatus.runtimeError b.elapsed)
  else
    match b.compareResult with
    | Except.error _ => Except.error (caseErr.compareFailed p)
    | Except.ok true => Except.ok (newRunResult base runStatus.accepted b.elapsed)
    | Except.ok false => Except.ok (newRunResult base runStatus.wrongAnswer b.elapsed)

/-- A subprocess is spawned for a case exactly when both the input file open and the
scratch answer-file creation succeed; runCmd.Run is reached only past those two checks. -/
def spawned (b : caseBehavior) : Bool := b.openOk && b.createOk

/-- A case hits an infrastructure error (and so contributes to multiErr rather than
recording a RunResult) when the open fails, the create fails, or the run succeeds but
the file comparison fails with an I/O error. -/
def infraFailed (b : caseBehavior) : Bool :=
  !b.openOk || !b.createOk || (b.runOk && !b.compareResult.isOk)

/-- The run loop of verify over the sorted input paths: accumulates, in iteration
order, the multiErr list, the runResults list, and the list of paths for which a
subprocess was actually spawned. -/
def runLoop (behavior : GoStr → caseBehavior) :
    List GoStr → List caseErr × List runResult × List GoStr
  | [] => ([], [], [])
  | p :: rest =>
    let s := runLoop behavior rest
    let sp := if spawned (behavior p) then p :: s.2.2 else s.2.2
    match runCase p (behavior p) with
    | Except.error e => (e :: s.1, s.2.1, sp)
    | Except.ok r => (s.1, r :: s.2.1, sp)

/-- The summary accumulator of verify: the slowest time and name seen so far and the
four per-verdict counters. -/
structure summary where
  slowestTime : Nat
  slowestTestcaseName : GoStr
  acCount : Nat
  waCount : Nat
  tleCount : Nat
  reCount : Nat
deriving DecidableEq, Repr

/-- The zero values the summary loop of verify starts from. -/
def summaryInit : summary := ⟨0, [], 0, 0, 0, 0⟩

/-- One iteration of the summary loop of verify: update the slowest case on strict
greater-than, then bump the counter selected by the switch on the verdict (the
switch has no case for unknown, which is therefore counted nowhere). -/
def summaryStep (s : summary) (v : runResult) : summary :=
  let s1 :=
    if s.slowestTime < v.execTime then
      { s with slowestTime := v.execTime, slowestTestcaseName := v.testcaseName }
    else s
  match v.status with
  | runStatus.accepted => { s1 with acCount := s1.acCount + 1 }
  | runStatus.wrongAnswer => { s1 with waCount := s1.waCount + 1 }
  | runStatus.timeLimitExceeded => { s1 with tleCount := s1.tleCount + 1 }
  | runStatus.runtimeError => { s1 with reCount := s1.reCount + 1 }
  | runStatus.unknown => s1

/-- The summary loop of verify as a fold over the runResults list. -/
def makeSummary (results : List runResult) : summary :=
  results.foldl summaryStep summaryInit

/-- The largest execTime occurring in a result list (0 for the empty list). -/
def maxDur (l : List runResult) : Nat := l.foldr (fun r m => max r.execTime m) 0

/-- Test-case discovery of verify: filepath.WalkDir collects every visited entry that
is not a directory and whose path ends in ".in", then slices.Sort orders the collected
paths lexicographically ascending. The entries list carries each visited path together
with its is-directory flag, in filesystem visit order. -/
def discover (entries : List (GoStr × Bool)) : List GoStr :=
  List.insertionSort (· ≤ ·)
    ((entries.filter (fun e => !e.2 && hasSuffix e.1 dotIn)).map (fun e => e.1))

/-- The externally visible effects of one verify invocation, in order: the
os.MkdirTemp call with its parent directory, the go build call, the filepath.WalkDir
scan, one spawn per subprocess started, any os.MkdirAll call, and the deferred
os.RemoveAll of the scratch directory. -/
inductive event where
  | mkdirTempEv (parent : GoStr)
  | buildEv
  | walkEv
  | spawnEv (path : GoStr)
  | mkdirAllEv (dir : GoStr)
  | removeTempEv
deriving DecidableEq, Repr

/-- The environment of one verify invocation: the outcome of every external effect.
parentExists says whether the fixed relative parent directory ".aoj-verify" exists in
the working directory; os.MkdirTemp(dir, pattern) fails when dir does not exist and
never creates dir itself, so the temp-directory creation succeeds only when
parentExists holds and no other failure (mkdirTempOtherOk) occurs. buildOk is whether
go build exits zero; buildErrMsg and buildStderr are the run error text and the
captured standard-error diagnostics on failure. walkResult is the outcome of the
filesystem scan: an error, or the visited entries (path, is-directory) in visit
order. behavior gives the per-case effect outcomes for each input path. -/
structure verifyEnv where
  parentExists : Bool
  mkdirTempOtherOk : Bool
  buildOk : Bool
  buildErrMsg : GoStr
  buildStderr : GoStr
  walkResult : Except Unit (List (GoStr × Bool))
  behavior : GoStr → caseBehavior

/-- os.MkdirTemp succeeds exactly when the parent exists and nothing else fails. -/
def mkdirTempOk (env : verifyEnv) : Bool := env.parentExists && env.mkdirTempOtherOk

/-- What one verify invocation produces: its returned error-or-nil, the summary it
prints (none when it returns early or fails), the runResults list it accumulated,
and the trace of effects it performed. -/
structure verifyOut where
  result : Except verifyErr Unit
  summaryOut : Option summary
  results : List runResult
  trace : List event

/-- The verify function of the source as a pure function of its environment:
create the scratch directory under ".aoj-verify", build the solution, walk the cache
directory for .in files and sort them, run every case accumulating multiErr and
runResults, then either return the joined multiErr without a summary or print the
summary and return nil. -/
def verify (env : verifyEnv) : verifyOut :=
  if mkdirTempOk env = false then
    { result := Except.error verifyErr.mkdirTempFailed
      summaryOut := none
      results := []
      trace := [event.mkdirTempEv aojVerifyDir] }
  else if env.buildOk = false then
    { result := Except.error (verifyErr.buildFailed env.buildErrMsg env.buildStderr)
      summaryOut := none
      results := []
      trace := [event.mkdirTempEv aojVerifyDir, event.buildEv, event.removeTempEv] }
  else
    match env.walkResult with
    | Except.error _ =>
      { result := Except.error verifyErr.walkFailed
        summaryOut := none
        results := []
        trace := [event.mkdirTempEv aojVerifyDir, event.buildEv, event.walkEv,
                  event.removeTempEv] }
    | Except.ok entries =>
      let out := runLoop env.behavior (discover entries)
      match out.1 with
      | [] =>
        { result := Except.ok ()
          summaryOut := some (makeSummary out.2.1)
          results := out.2.1
          trace := [event.mkdirTempEv aojVerifyDir, event.buildEv, event.walkEv]
                   ++ out.2.2.map event.spawnEv ++ [event.removeTempEv] }
      | e :: es =>
        { result := Except.error (verifyErr.runCaseFailed (e :: es))
          summaryOut := none
          results := out.2.1
          trace := [event.mkdirTempEv aojVerifyDir, event.buildEv, event.walkEv]
                   ++ out.2.2.map event.spawnEv ++ [event.removeTempEv] }

/-- Spec-side definition for claim C4, following the words of the claim rather than
the source: the stem of an input path is the base name of the path (the component
after the last path separator, byte 47) without its ".in" suffix. -/
def specBaseStem (p : GoStr) : GoStr :=
  trimSuffix ((p.reverse.takeWhile (fun b => b != 47)).reverse) dotIn

/-- Concrete fixture: a case whose effects all succeed and whose output matches. -/
def sampleCaseOk : caseBehavior := ⟨true, true, true, 3, Except.ok true⟩

/-- Concrete fixture: an environment in which every effect succeeds and the walk
finds the single input file "a.in". -/
def sampleEnv : verifyEnv :=
  ⟨true, true, true, [], [], Except.ok [([97, 46, 105, 110], false)], fun _ => sampleCaseOk⟩

/-- Concrete fixture: an environment whose go build fails with diagnostics. -/
def sampleEnvBuildFail : verifyEnv :=
  ⟨true, true, false, [101], [98, 97, 100], Except.ok [([97, 46, 105, 110], false)],
    fun _ => sampleCaseOk⟩

/-- Concrete fixture: an environment in which the parent directory ".aoj-verify"
does not exist, so os.MkdirTemp fails. -/
def sampleEnvNoParent : verifyEnv :=
  ⟨false, true, true, [], [], Except.ok [([97, 46, 105, 110], false)], fun _ => sampleCaseOk⟩

/-- Concrete fixture: two run results with the verdicts accepted and runtimeError. -/
def sampleResults : List runResult :=
  [⟨[97], runStatus.accepted, 1⟩, ⟨[98], runStatus.runtimeError, 2⟩]

/-- Concrete fixture: a behavior in which the input file "b.in" cannot be opened
and every other case succeeds. -/
def sampleBehaviorOpenFail : GoStr → caseBehavior := fun p =>
  if p = [98, 46, 105, 110] then ⟨false, true, true, 0, Except.ok true⟩ else sampleCaseOk

/-! Helper lemmas about the summary fold. -/

theorem summaryStep_acCount (s : summary) (v : runResult) :
    (summaryStep s v).acCount
      = s.acCount + (if v.status == runStatus.accepted then 1 else 0) := by
  cases hst : v.status <;> simp [summaryStep, hst] <;> split <;> rfl

theorem summaryStep_waCount (s : summary) (v : runResult) :
    (summaryStep s v).waCount
      = s.waCount + (if v.status == runStatus.wrongAnswer then 1 else 0) := by
  cases hst : v.status <;> simp [summaryStep, hst] <;> split <;> rfl

theorem summaryStep_tleCount (s : summary) (v : runResult) :
    (summaryStep s v).tleCount
      = s.tleCount + (if v.status == runStatus.timeLimitExceeded then 1 else 0) := by
  cases hst : v.status <;> simp [summaryStep, hst] <;> split <;> rfl

theorem summaryStep_reCount (s : summary) (v : runResult) :
    (summaryStep s v).reCount
      = s.reCount + (if v.status == runStatus.runtimeError then 1 else 0) := by
  cases hst : v.status <;> simp [summaryStep, hst] <;> split <;> rfl

theorem foldl_summaryStep_acCount (l : List runResult) : ∀ s : summary,
    (l.foldl summaryStep s).acCount
      = s.acCount + List.countP (fun r => r.status == runStatus.accepted) l := by
  induction l with
  | nil => intro s; simp
  | cons v rest ih =>
    intro s
    rw [List.foldl_cons, ih, summaryStep_acCount, List.countP_cons]
    cases hb : (v.status == runStatus.accepted) <;> simp [hb] <;> omega

theorem foldl_summaryStep_waCount (l : List runResult) : ∀ s : summary,
    (l.foldl summaryStep s).waCount
      = s.waCount + List.countP (fun r => r.status == runStatus.wrongAnswer) l := by
  induction l with
  | nil => intro s; simp
  | cons v rest ih =>
    intro s
    rw [List.foldl_cons, ih, summaryStep_waCount, List.countP_cons]
    cases hb : (v.status == runStatus.wrongAnswer) <;> simp [hb] <;> omega

theorem foldl_summaryStep_tleCount (l : List runResult) : ∀ s : summary,
    (l.foldl summaryStep s).tleCount
      = s.tleCount + List.countP (fun r => r.status == runStatus.timeLimitExceeded) l := by
  induction l with
  | nil => intro s; simp
  | cons v rest ih =>
    intro s
    rw [List.foldl_cons, ih, summaryStep_tleCount, List.countP_cons]
    cases hb : (v.status == runStatus.timeLimitExceeded) <;> simp [hb] <;> omega

theorem foldl_summaryStep_reCount (l : List runResult) : ∀ s : summary,
    (l.foldl summaryStep s).reCount
      = s.reCount + List.countP (fun r => r.status == runStatus.runtimeError) l := by
  induction l with
  | nil => intro s; simp
  | cons v rest ih =>
    intro s
    rw [List.foldl_cons, ih, summaryStep_reCount, List.countP_cons]
    cases hb : (v.status == runStatus.runtimeError) <;> simp [hb] <;> omega

theorem countP_four_statuses (l : List runResult) :
    List.countP (fun r => r.status == runStatus.accepted) l
      + List.countP (fun r => r.status == runStatus.wrongAnswer) l
      + List.countP (fun r => r.status == runStatus.timeLimitExceeded) l
      + List.countP (fun r => r.status == runStatus.runtimeError) l
      = List.countP (fun r => r.status != runStatus.unknown) l := by
  induction l with
  | nil => rfl
  | cons v rest ih =>
    cases hst : v.status <;> simp [List.countP_cons, hst] <;> omega

theorem summaryStep_slowestTime (s : summary) (v : runResult) :
    (summaryStep s v).slowestTime
      = (if s.slowestTime < v.execTime then v.execTime else s.slowestTime) := by
  cases hst : v.status <;> simp [summaryStep, hst] <;> split <;> rfl

theorem summaryStep_slowestName (s : summary) (v : runResult) :
    (summaryStep s v).slowestTestcaseName
      = (if s.slowestTime < v.execTime then v.testcaseName else s.slowestTestcaseName) := by
  cases hst : v.status <;> simp [summaryStep, hst] <;> split <;> rfl

theorem maxDur_cons (v : runResult) (l : List runResult) :
    maxDur (v :: l) = max v.execTime (maxDur l) := rfl

theorem le_maxDur (l : List runResult) : ∀ r ∈ l, r.execTime ≤ maxDur l := by
  induction l with
  | nil => intro r hr; cases hr
  | cons v rest ih =>
    intro r hr
    rw [maxDur_cons]
    rcases List.mem_cons.mp hr with h | h
    · rw [h]; exact Nat.le_max_left _ _
    · exact Nat.le_trans (ih r h) (Nat.le_max_right _ _)

theorem foldl_slowest_stable (l : List runResult) : ∀ s : summary,
    (∀ r ∈ l, r.execTime ≤ s.slowestTime) →
    (l.foldl summaryStep s).slowestTime = s.slowestTime ∧
    (l.foldl summaryStep s).slowestTestcaseName = s.slowestTestcaseName := by
  induction l with
  | nil => intro s _; exact ⟨rfl, rfl⟩
  | cons v rest ih =>
    intro s h
    have hv : ¬ (s.slowestTime < v.execTime) := Nat.not_lt.mpr (h v (List.mem_cons_self v rest))
    have ht : (summaryStep s v).slowestTime = s.slowestTime := by
      rw [summaryStep_slowestTime, if_neg hv]
    have hn : (summaryStep s v).slowestTestcaseName = s.slowestTestcaseName := by
      rw [summaryStep_slowestName, if_neg hv]
    rw [List.foldl_cons]
    have hrest : ∀ r ∈ rest, r.execTime ≤ (summaryStep s v).slowestTime := by
      intro r hr
      rw [ht]
      exact h r (List.mem_cons_of_mem v hr)
    obtain ⟨h1, h2⟩ := ih (summaryStep s v) hrest
    exact ⟨h1.trans ht, h2.trans hn⟩

theorem foldl_slowest_max (l : List runResult) : ∀ s : summary, s.slowestTime < maxDur l →
    ∃ r, List.find? (fun x => x.execTime == maxDur l) l = some r ∧
      (l.foldl summaryStep s).slowestTime = maxDur l ∧
      (l.foldl summaryStep s).slowestTestcaseName = r.testcaseName := by
  induction l with
  | nil =>
    intro s h
    exact absurd h (by simp [maxDur])
  | cons v rest ih =>
    intro s h
    by_cases hlt : s.slowestTime < v.execTime
    · have ht : (summaryStep s v).slowestTime = v.execTime := by
        rw [summaryStep_slowestTime, if_pos hlt]
      have hn : (summaryStep s v).slowestTestcaseName = v.testcaseName := by
        rw [summaryStep_slowestName, if_pos hlt]
      by_cases hge : maxDur rest ≤ v.execTime
      · have hmax : maxDur (v :: rest) = v.execTime := by
          rw [maxDur_cons]; exact Nat.max_eq_left hge
        have hpred : (v.execTime == maxDur (v :: rest)) = true := by
          rw [hmax]; exact beq_self_eq_true v.execTime
        refine ⟨v, ?_, ?_, ?_⟩
        · exact List.find?_cons_of_pos rest hpred
        · have hb : ∀ r ∈ rest, r.execTime ≤ (summaryStep s v).slowestTime := by
            intro r hr
            rw [ht]
            exact Nat.le_trans (le_maxDur rest r hr) hge
          rw [List.foldl_cons, (foldl_slowest_stable rest (summaryStep s v) hb).1, ht, hmax]
        · have hb : ∀ r ∈ rest, r.execTime ≤ (summaryStep s v).slowestTime := by
            intro r hr
            rw [ht]
            exact Nat.le_trans (le_maxDur rest r hr) hge
          rw [List.foldl_cons, (foldl_slowest_stable rest (summaryStep s v) hb).2, hn]
      · have hvlt : v.execTime < maxDur rest := Nat.lt_of_not_le hge
        have hmax : maxDur (v :: rest) = maxDur rest := by
          rw [maxDur_cons]; exact Nat.max_eq_right (Nat.le_of_lt hvlt)
        have hpred : ¬ ((v.execTime == maxDur (v :: rest)) = true) := by
          rw [hmax]
          simp only [beq_iff_eq]
          exact Nat.ne_of_lt hvlt
        have hs : (summaryStep s v).slowestTime < maxDur rest := by rw [ht]; exact hvlt
        obtain ⟨r, hfind, htime, hname⟩ := ih (summaryStep s v) hs
        refine ⟨r, ?_, ?_, ?_⟩
        · rw [List.find?_cons_of_neg rest hpred, hmax]; exact hfind
        · rw [List.foldl_cons, htime, hmax]
        · rw [List.foldl_cons, hname]
    · have hvle : v.execTime ≤ s.slowestTime := Nat.not_lt.mp hlt
      have ht : (summaryStep s v).slowestTime = s.slowestTime := by
        rw [summaryStep_slowestTime, if_neg hlt]
      have hn : (summaryStep s v).slowestTestcaseName = s.slowestTestcaseName := by
        rw [summaryStep_slowestName, if_neg hlt]
      have hrlt : s.slowestTime < maxDur rest := by
        rw [maxDur_cons] at h
        rcases lt_max_iff.mp h with h1 | h1
        · exact absurd h1 hlt
        · exact h1
      have hmax : maxDur (v :: rest) = maxDur rest := by
        rw [maxDur_cons]
        exact Nat.max_eq_right (Nat.le_of_lt (Nat.lt_of_le_of_lt hvle hrlt))
      have hpred : ¬ ((v.execTime == maxDur (v :: rest)) = true) := by
        rw [hmax]
        simp only [beq_iff_eq]
        exact Nat.ne_of_lt (Nat.lt_of_le_of_lt hvle hrlt)
      have hs : (summaryStep s v).slowestTime < maxDur rest := by rw [ht]; exact hrlt
      obtain ⟨r, hfind, htime, hname⟩ := ih (summaryStep s v) hs
      refine ⟨r, ?_, ?_, ?_⟩
      · rw [List.find?_cons_of_neg rest hpred, hmax]; exact hfind
      · rw [List.foldl_cons, htime, hmax]
      · rw [List.foldl_cons, hname]

/-! Helper lemmas about the run loop. -/

theorem runLoop_errs (behavior : GoStr → caseBehavior) (ps : List GoStr) :
    (runLoop behavior ps).1
      = ps.filterMap (fun p =>
          match runCase p (behavior p) with
          | Except.error e => some e
          | Except.ok _ => none) := by
  induction ps with
  | nil => rfl
  | cons p rest ih =>
    simp only [runLoop, List.filterMap_cons]
    cases hc : runCase p (behavior p) <;> simp [hc, ih]

theorem runLoop_results (behavior : GoStr → caseBehavior) (ps : List GoStr) :
    (runLoop behavior ps).2.1
      = ps.filterMap (fun p => (runCase p (behavior p)).toOption) := by
  induction ps with
  | nil => rfl
  | cons p rest ih =>
    simp only [runLoop, List.filterMap_cons]
    cases hc : runCase p (behavior p) <;> simp [hc, ih, Except.toOption]

theorem runLoop_spawned (behavior : GoStr → caseBehavior) (ps : List GoStr) :
    (runLoop behavior ps).2.2 = ps.filter (fun p => spawned (behavior p)) := by
  induction ps with
  | nil => rfl
  | cons p rest ih =>
    simp only [runLoop, List.filter_cons]
    cases hc : runCase p (behavior p) <;> cases hsp : spawned (behavior p) <;> simp [hc, hsp, ih]

theorem runCase_ok_name (p : GoStr) (b : caseBehavior) (r : runResult)
    (h : runCase p b = Except.ok r) : r.testcaseName = trimSuffix p dotIn := by
  cases b with
  | mk o c ro t cr =>
    cases o <;> cases c <;> cases ro <;> rcases cr with u | eq <;> (try cases eq) <;>
      cases h <;> rfl

theorem runCase_ok_status (p : GoStr) (b : caseBehavior) (r : runResult)
    (h : runCase p b = Except.ok r) :
    r.status = runStatus.accepted ∨ r.status = runStatus.wrongAnswer ∨
      r.status = runStatus.runtimeError := by
  cases b with
  | mk o c ro t cr =>
    cases o <;> cases c <;> cases ro <;> rcases cr with u | eq <;> (try cases eq) <;>
      cases h <;> simp [newRunResult]

theorem infraFailed_error (p : GoStr) (b : caseBehavior) (h : infraFailed b = true) :
    ∃ e, runCase p b = Except.error e := by
  cases b with
  | mk o c ro t cr =>
    cases o <;> cases c <;> cases ro <;> rcases cr with u | eq <;>
      first
        | exact ⟨caseErr.readInFailed p, rfl⟩
        | exact ⟨caseErr.createAnswerFailed p, rfl⟩
        | exact ⟨caseErr.compareFailed p, rfl⟩
        | (exfalso; simp [infraFailed, Except.isOk, Except.toBool] at h)

/-! Helper lemmas about verify as a whole. -/

theorem toOption_eq_some {ε α : Type} (x : Except ε α) (a : α) (h : x.toOption = some a) :
    x = Except.ok a := by
  cases x with
  | error e => simp [Except.toOption] at h
  | ok b => simp [Except.toOption] at h; rw [h]

theorem makeSummary_tleCount_zero (l : List runResult)
    (h : ∀ r ∈ l, r.status ≠ runStatus.timeLimitExceeded) :
    (makeSummary l).tleCount = 0 := by
  rw [makeSummary, foldl_summaryStep_tleCount l summaryInit]
  have hz : List.countP (fun r => r.status == runStatus.timeLimitExceeded) l = 0 :=
    List.countP_eq_zero.mpr (by intro a ha; simpa using h a ha)
  simp [summaryInit, hz]

theorem verify_summary_iff (env : verifyEnv) :
    (verify env).summaryOut.isSome = true ↔ (verify env).result = Except.ok () := by
  simp only [verify]
  split
  · simp
  · split
    · simp
    · split
      · simp
      · split <;> simp

theorem verify_ok_iff (env : verifyEnv) :
    (verify env).result = Except.ok () ↔
      (mkdirTempOk env = true ∧ env.buildOk = true ∧
        ∃ entries, env.walkResult = Except.ok entries ∧
          (runLoop env.behavior (discover entries)).1 = []) := by
  obtain ⟨pe, mo, bo, bm, bs, wr, bh⟩ := env
  cases pe <;> cases mo <;> cases bo <;> rcases wr with u | entries
  all_goals simp [verify, mkdirTempOk]
  all_goals (cases herrs : (runLoop bh (discover entries)).1 <;> simp [herrs])

theorem verify_trace_shape (env : verifyEnv) :
    (verify env).trace = [event.mkdirTempEv aojVerifyDir] ∨
    (verify env).trace = [event.mkdirTempEv aojVerifyDir, event.buildEv, event.removeTempEv] ∨
    (verify env).trace
      = [event.mkdirTempEv aojVerifyDir, event.buildEv, event.walkEv, event.removeTempEv] ∨
    ∃ sp : List GoStr, (verify env).trace
      = [event.mkdirTempEv aojVerifyDir, event.buildEv, event.walkEv]
        ++ sp.map event.spawnEv ++ [event.removeTempEv] := by
  simp only [verify]
  split
  · exact Or.inl rfl
  · split
    · exact Or.inr (Or.inl rfl)
    · split
      · exact Or.inr (Or.inr (Or.inl rfl))
      · split
        · exact Or.inr (Or.inr (Or.inr ⟨_, rfl⟩))
        · exact Or.inr (Or.inr (Or.inr ⟨_, rfl⟩))

theorem verify_summaryOut_cases (env : verifyEnv) :
    (verify env).summaryOut = none ∨
    (verify env).summaryOut = some (makeSummary (verify env).results) := by
  simp only [verify]
  split
  · exact Or.inl rfl
  · split
    · exact Or.inl rfl
    · split
      · exact Or.inl rfl
      · split
        · exact Or.inr rfl
        · exact Or.inl rfl

theorem verify_results_sub (env : verifyEnv) (r : runResult)
    (hr : r ∈ (verify env).results) : ∃ p b, runCase p b = Except.ok r := by
  simp only [verify] at hr
  split at hr
  · simp at hr
  · split at hr
    · simp at hr
    · split at hr
      · simp at hr
      · split at hr <;>
        · rw [runLoop_results] at hr
          obtain ⟨p, hp, hsome⟩ := List.mem_filterMap.mp hr
          exact ⟨p, _, toOption_eq_some _ _ hsome⟩

/-! Claim theorems. -/

/-- Claim C1: for every executed test case (input opened and scratch file created),
the recorded verdict is determined exactly by the pair (run error-or-nil,
output-equality boolean): a failed run gives runtimeError; a successful run with
byte-equal output gives accepted; a successful run with differing output gives
wrongAnswer. -/
theorem C1_outcome_classifier (p : GoStr) (b : caseBehavior)
    (hopen : b.openOk = true) (hcreate : b.createOk = true) :
    (b.runOk = false →
      runCase p b
        = Except.ok (newRunResult (trimSuffix p dotIn) runStatus.runtimeError b.elapsed)) ∧
    (∀ eq : Bool, b.runOk = true → b.compareResult = Except.ok eq →
      runCase p b
        = Except.ok (newRunResult (trimSuffix p dotIn)
            (if eq = true then runStatus.accepted else runStatus.wrongAnswer) b.elapsed)) := by
  constructor
  · intro hro
    simp [runCase, hopen, hcreate, hro]
  · intro eq hro hcr
    cases eq <;> simp [runCase, hopen, hcreate, hro, hcr]

/-- Witness for C1 at a concrete input: all effects succeed and the outputs match,
so the case "a.in" is recorded as accepted. -/
theorem C1_witness :
    runCase [97, 46, 105, 110] ⟨true, true, true, 1, Except.ok true⟩
      = Except.ok (newRunResult [97] runStatus.accepted 1) := by
  have h := (C1_outcome_classifier [97, 46, 105, 110]
    ⟨true, true, true, 1, Except.ok true⟩ rfl rfl).2 true rfl rfl
  rw [h]
  decide

/-- Claim C2: the invocation returns nil exactly when no infrastructure error
occurred (temp directory created, build succeeded, walk succeeded and the per-case
error list stayed empty); a summary is printed exactly when it returns nil; when the
loop accumulated per-case errors they are surfaced as one combined error at the end
and no summary is produced, and otherwise the summary of all recorded results is
produced regardless of the verdicts in it. -/
theorem C2_failure_iff_infra (env : verifyEnv) :
    ((verify env).result = Except.ok () ↔
      (mkdirTempOk env = true ∧ env.buildOk = true ∧
        ∃ entries, env.walkResult = Except.ok entries ∧
          (runLoop env.behavior (discover entries)).1 = [])) ∧
    ((verify env).summaryOut.isSome = true ↔ (verify env).result = Except.ok ()) ∧
    (∀ entries, mkdirTempOk env = true → env.buildOk = true →
      env.walkResult = Except.ok entries →
      (((runLoop env.behavior (discover entries)).1 = [] →
          (verify env).result = Except.ok () ∧
          (verify env).summaryOut
            = some (makeSummary (runLoop env.behavior (discover entries)).2.1)) ∧
        (∀ e es, (runLoop env.behavior (discover entries)).1 = e :: es →
          (verify env).result = Except.error (verifyErr.runCaseFailed (e :: es)) ∧
          (verify env).summaryOut = none))) := by
  refine ⟨verify_ok_iff env, verify_summary_iff env, ?_⟩
  intro entries h1 h2 h3
  constructor
  · intro h4
    constructor <;> simp [verify, h1, h2, h3, h4]
  · intro e es h4
    constructor <;> simp [verify, h1, h2, h3, h4]

/-- Witness for C2 at a concrete environment in which everything succeeds:
the invocation returns nil and produces the summary of its results. -/
theorem C2_witness :
    (verify sampleEnv).result = Except.ok () ∧
    (verify sampleEnv).summaryOut
      = some (makeSummary
          (runLoop sampleEnv.behavior (discover [([97, 46, 105, 110], false)])).2.1) :=
  ((C2_failure_iff_infra sampleEnv).2.2 [([97, 46, 105, 110], false)]
    rfl rfl rfl).1 (by decide)

/-- Claim C3: when the build step fails, verify returns a build error carrying the
captured compiler diagnostics, accumulates no RunResults, prints no summary, and
performs neither the discovery walk nor any test-case subprocess spawn. -/
theorem C3_build_failure_aborts (env : verifyEnv)
    (hmk : mkdirTempOk env = true) (hb : env.buildOk = false) :
    (verify env).result
        = Except.error (verifyErr.buildFailed env.buildErrMsg env.buildStderr) ∧
    (verify env).results = [] ∧
    (verify env).summaryOut = none ∧
    event.walkEv ∉ (verify env).trace ∧
    ∀ p, event.spawnEv p ∉ (verify env).trace := by
  refine ⟨?_, ?_, ?_, ?_, ?_⟩ <;> simp [verify, hmk, hb]

/-- Witness for C3 at a concrete environment whose build fails. -/
theorem C3_witness :
    (verify sampleEnvBuildFail).result
        = Except.error (verifyErr.buildFailed [101] [98, 97, 100]) ∧
    (verify sampleEnvBuildFail).results = [] ∧
    (verify sampleEnvBuildFail).summaryOut = none ∧
    event.walkEv ∉ (verify sampleEnvBuildFail).trace ∧
    event.spawnEv [97, 46, 105, 110] ∉ (verify sampleEnvBuildFail).trace := by
  obtain ⟨h1, h2, h3, h4, h5⟩ := C3_build_failure_aborts sampleEnvBuildFail rfl rfl
  exact ⟨h1, h2, h3, h4, h5 [97, 46, 105, 110]⟩

/-- Counterexample for claim C4: the claim says the recorded test-case name is the
base name of the input path without the ".in" suffix, but for the discovered path
"d/a.in" the source records strings.TrimSuffix of the full path, namely "d/a",
which differs from the base-name stem "a". -/
theorem C4_counterexample :
    runCase [100, 47, 97, 46, 105, 110] ⟨true, true, true, 5, Except.ok true⟩
      = Except.ok (newRunResult [100, 47, 97] runStatus.accepted 5) ∧
    specBaseStem [100, 47, 97, 46, 105, 110] = [97] ∧
    ([100, 47, 97] : GoStr) ≠ [97] := by decide

/-- Claim C4 as amended: the test-case name stored in every recorded RunResult is
the full input file path with the ".in" suffix trimmed (which equals the base-name
stem only when the path has no directory component). -/
theorem C4_testcase_name (p : GoStr) (b : caseBehavior) (r : runResult)
    (h : runCase p b = Except.ok r) : r.testcaseName = trimSuffix p dotIn :=
  runCase_ok_name p b r h

/-- Witness for the amended C4 at the concrete path "d/a.in". -/
theorem C4_witness :
    (⟨[100, 47, 97], runStatus.accepted, 3⟩ : runResult).testcaseName
      = trimSuffix [100, 47, 97, 46, 105, 110] dotIn :=
  C4_testcase_name [100, 47, 97, 46, 105, 110] ⟨true, true, true, 3, Except.ok true⟩
    ⟨[100, 47, 97], runStatus.accepted, 3⟩ (by decide)

/-- Claim C5: the four per-verdict counts of the summary fold add up to the number
of results whose verdict is not unknown; in particular, on a list containing only
the four counted verdicts they partition the list exactly, and an unknown result is
counted in none of the four counters. -/
theorem C5_counts_partition (l : List runResult) :
    ((makeSummary l).acCount + (makeSummary l).waCount + (makeSummary l).tleCount
        + (makeSummary l).reCount
      = List.countP (fun r => r.status != runStatus.unknown) l) ∧
    ((∀ r ∈ l, r.status ≠ runStatus.unknown) →
      (makeSummary l).acCount + (makeSummary l).waCount + (makeSummary l).tleCount
          + (makeSummary l).reCount
        = l.length) := by
  have hsum : (makeSummary l).acCount + (makeSummary l).waCount + (makeSummary l).tleCount
      + (makeSummary l).reCount
      = List.countP (fun r => r.status != runStatus.unknown) l := by
    rw [makeSummary, foldl_summaryStep_acCount l summaryInit,
      foldl_summaryStep_waCount l summaryInit, foldl_summaryStep_tleCount l summaryInit,
      foldl_summaryStep_reCount l summaryInit]
    simp only [summaryInit, Nat.zero_add]
    exact countP_four_statuses l
  refine ⟨hsum, ?_⟩
  intro h
  rw [hsum]
  apply List.countP_eq_length.mpr
  intro a ha
  simpa using h a ha

/-- Witness for C5 on a concrete two-element result list with verdicts accepted and
runtimeError: the four counts sum to two. -/
theorem C5_witness :
    (makeSummary sampleResults).acCount + (makeSummary sampleResults).waCount
        + (makeSummary sampleResults).tleCount + (makeSummary sampleResults).reCount
      = 2 := by
  have h := (C5_counts_partition sampleResults).2 (by decide)
  simpa using h

/-- Counterexample for claim C6: a nonempty result list with distinct durations in
which the maximum duration is zero. The fold updates only on strict greater-than
from the zero initial value, so the reported slowest-case name stays the empty
initial name, which is not the name of any case in the list, in particular not of
the case with the maximum elapsed time. -/
theorem C6_counterexample :
    ([⟨[97], runStatus.accepted, 0⟩] : List runResult) ≠ [] ∧
    (List.map runResult.execTime [⟨[97], runStatus.accepted, 0⟩]).Nodup ∧
    maxDur [⟨[97], runStatus.accepted, 0⟩] = 0 ∧
    (makeSummary [⟨[97], runStatus.accepted, 0⟩]).slowestTestcaseName = [] ∧
    ∀ r ∈ ([⟨[97], runStatus.accepted, 0⟩] : List runResult), r.testcaseName ≠ [] := by
  decide

/-- Claim C6 as amended: for any result list whose maximum duration is positive,
the summary reports that maximum as the slowest time and reports the name of the
first result in iteration order attaining the maximum (so for distinct durations it
is the unique maximum, and duplicate maxima resolve to the first encountered,
because the fold updates only on strict greater-than). -/
theorem C6_slowest_first_max (l : List runResult) (hpos : 0 < maxDur l) :
    ∃ r, List.find? (fun x => x.execTime == maxDur l) l = some r ∧ r ∈ l ∧
      r.execTime = maxDur l ∧
      (makeSummary l).slowestTime = r.execTime ∧
      (makeSummary l).slowestTestcaseName = r.testcaseName ∧
      ∀ x ∈ l, x.execTime ≤ r.execTime := by
  obtain ⟨r, hfind, htime, hname⟩ := foldl_slowest_max l summaryInit hpos
  have hmem : r ∈ l := List.mem_of_find?_eq_some hfind
  have hre : r.execTime = maxDur l := by simpa using List.find?_some hfind
  refine ⟨r, hfind, hmem, hre, ?_, ?_, ?_⟩
  · rw [makeSummary, htime, hre]
  · rw [makeSummary, hname]
  · intro x hx
    rw [hre]
    exact le_maxDur l x hx

/-- Witness for the amended C6 on a concrete list whose maximum duration 2 is
attained by the case named "b". -/
theorem C6_witness :
    (makeSummary sampleResults).slowestTime = 2 ∧
    (makeSummary sampleResults).slowestTestcaseName = [98] := by
  obtain ⟨r, hfind, hmem, hre, ht, hn, hb⟩ := C6_slowest_first_max sampleResults (by decide)
  have hconc : List.find? (fun x => x.execTime == maxDur sampleResults) sampleResults
      = some ⟨[98], runStatus.runtimeError, 2⟩ := by decide
  rw [hconc] at hfind
  cases hfind
  exact ⟨by rw [ht], by rw [hn]⟩

/-- Claim C7: discovery collects exactly the non-directory walked entries whose path
ends in ".in", the resulting path list is sorted ascending, and the result depends
only on the set of walked entries: permuting the filesystem visit order leaves the
discovered list unchanged. -/
theorem C7_discovery (entries : List (GoStr × Bool)) :
    (∀ p, p ∈ discover entries ↔
      ∃ e, e ∈ entries ∧ e.1 = p ∧ e.2 = false ∧ hasSuffix p dotIn = true) ∧
    List.Sorted (fun a b : GoStr => a ≤ b) (discover entries) ∧
    (∀ entries2, List.Perm entries entries2 → discover entries = discover entries2) := by
  refine ⟨?_, ?_, ?_⟩
  · intro p
    unfold discover
    rw [List.Perm.mem_iff (List.perm_insertionSort _ _)]
    simp only [List.mem_map, List.mem_filter, Bool.and_eq_true, Bool.not_eq_true']
    constructor
    · rintro ⟨a, ⟨ha, h2, h3⟩, hap⟩
      exact ⟨a, ha, hap, h2, hap ▸ h3⟩
    · rintro ⟨e, he, hep, he2, hs⟩
      exact ⟨e, ⟨he, he2, hep ▸ hs⟩, hep⟩
  · exact List.sorted_insertionSort _ _
  · intro entries2 hperm
    unfold discover
    exact List.eq_of_perm_of_sorted
      (((List.perm_insertionSort _ _).trans ((hperm.filter _).map _)).trans
        (List.perm_insertionSort _ _).symm)
      (List.sorted_insertionSort _ _) (List.sorted_insertionSort _ _)

/-- Witness for C7: two visit orders of the same two entries discover the same
sorted list. -/
theorem C7_witness :
    discover [([98, 46, 105, 110], false), ([97, 46, 105, 110], false)]
      = discover [([97, 46, 105, 110], false), ([98, 46, 105, 110], false)] :=
  (C7_discovery [([98, 46, 105, 110], false), ([97, 46, 105, 110], false)]).2.2
    [([97, 46, 105, 110], false), ([98, 46, 105, 110], false)] (by decide)

/-- Claim C8: no code path of the run loop produces a timeLimitExceeded verdict:
every recorded result is accepted, wrongAnswer or runtimeError, and every printed
summary has a zero TLE count. -/
theorem C8_no_tle (env : verifyEnv) :
    (∀ r ∈ (verify env).results,
      r.status = runStatus.accepted ∨ r.status = runStatus.wrongAnswer ∨
        r.status = runStatus.runtimeError) ∧
    (∀ s, (verify env).summaryOut = some s → s.tleCount = 0) := by
  constructor
  · intro r hr
    obtain ⟨p, b, hc⟩ := verify_results_sub env r hr
    exact runCase_ok_status p b r hc
  · intro s hs
    rcases verify_summaryOut_cases env with h | h
    · rw [h] at hs; cases hs
    · rw [h] at hs
      injection hs with hs2
      rw [← hs2]
      apply makeSummary_tleCount_zero
      intro r hrX
      obtain ⟨p, b, hc⟩ := verify_results_sub env r hrX
      rcases runCase_ok_status p b r hc with h1 | h1 | h1 <;> simp [h1]

/-- Witness for C8 at a concrete successful environment: the printed summary has a
zero TLE count. -/
theorem C8_witness :
    (makeSummary
      (runLoop sampleEnv.behavior (discover [([97, 46, 105, 110], false)])).2.1).tleCount
      = 0 :=
  (C8_no_tle sampleEnv).2
    (makeSummary
      (runLoop sampleEnv.behavior (discover [([97, 46, 105, 110], false)])).2.1)
    (by decide)

/-- Claim C9: every invocation starts with the os.MkdirTemp call whose parent is the
fixed relative directory ".aoj-verify"; verify never performs an os.MkdirAll, so it
never creates that parent itself; and when the parent does not exist the invocation
fails with the temp-directory error before building or spawning anything, with no
results and no summary. -/
theorem C9_scratch_dir_parent (env : verifyEnv) :
    (verify env).trace.head? = some (event.mkdirTempEv aojVerifyDir) ∧
    (∀ d, event.mkdirAllEv d ∉ (verify env).trace) ∧
    (env.parentExists = false →
      (verify env).result = Except.error verifyErr.mkdirTempFailed ∧
      event.buildEv ∉ (verify env).trace ∧
      (∀ p, event.spawnEv p ∉ (verify env).trace) ∧
      (verify env).results = [] ∧ (verify env).summaryOut = none) := by
  refine ⟨?_, ?_, ?_⟩
  · rcases verify_trace_shape env with h | h | h | ⟨sp, h⟩ <;> rw [h] <;> simp
  · intro d
    rcases verify_trace_shape env with h | h | h | ⟨sp, h⟩ <;> rw [h] <;> simp
  · intro hpe
    have hmk : mkdirTempOk env = false := by simp [mkdirTempOk, hpe]
    refine ⟨?_, ?_, ?_, ?_, ?_⟩ <;> simp [verify, hmk]

/-- Witness for C9 at a concrete environment whose parent directory is missing. -/
theorem C9_witness :
    (verify sampleEnvNoParent).result = Except.error verifyErr.mkdirTempFailed ∧
    event.buildEv ∉ (verify sampleEnvNoParent).trace ∧
    event.spawnEv [97, 46, 105, 110] ∉ (verify sampleEnvNoParent).trace ∧
    (verify sampleEnvNoParent).results = [] ∧
    (verify sampleEnvNoParent).summaryOut = none := by
  obtain ⟨_, _, h⟩ := C9_scratch_dir_parent sampleEnvNoParent
  obtain ⟨h1, h2, h3, h4, h5⟩ := h rfl
  exact ⟨h1, h2, h3 [97, 46, 105, 110], h4, h5⟩

/-- Claim C10: a test case hitting an infrastructure error (input cannot be opened,
scratch output cannot be created, or the comparison fails with an I/O error)
records no RunResult at all: the result list, and hence the summary, is exactly
that of the other cases, while every other case is still processed (the error and
result lists of the surrounding cases are untouched and later cases still spawn). -/
theorem C10_infra_error_case (behavior : GoStr → caseBehavior)
    (pre post : List GoStr) (p : GoStr) (h : infraFailed (behavior p) = true) :
    (∃ e, runCase p (behavior p) = Except.error e ∧
      (runLoop behavior (pre ++ p :: post)).1
        = (runLoop behavior pre).1 ++ e :: (runLoop behavior post).1) ∧
    (runLoop behavior (pre ++ p :: post)).2.1
      = (runLoop behavior pre).2.1 ++ (runLoop behavior post).2.1 ∧
    makeSummary (runLoop behavior (pre ++ p :: post)).2.1
      = makeSummary ((runLoop behavior pre).2.1 ++ (runLoop behavior post).2.1) ∧
    (runLoop behavior (pre ++ p :: post)).2.2
      = (runLoop behavior pre).2.2 ++ (if spawned (behavior p) then [p] else [])
        ++ (runLoop behavior post).2.2 := by
  obtain ⟨e, he⟩ := infraFailed_error p (behavior p) h
  have hres : (runLoop behavior (pre ++ p :: post)).2.1
      = (runLoop behavior pre).2.1 ++ (runLoop behavior post).2.1 := by
    rw [runLoop_results, runLoop_results, runLoop_results, List.filterMap_append,
      List.filterMap_cons, he]
    simp [Except.toOption]
  refine ⟨⟨e, he, ?_⟩, hres, congrArg makeSummary hres, ?_⟩
  · rw [runLoop_errs, runLoop_errs, runLoop_errs, List.filterMap_append,
      List.filterMap_cons, he]
  · rw [runLoop_spawned, runLoop_spawned, runLoop_spawned, List.filter_append,
      List.filter_cons]
    cases hsp : spawned (behavior p) <;> simp [hsp]

/-- Witness for C10 at a concrete behavior where case "b.in" cannot be opened and
cases "a.in" and "c.in" succeed: "b" records no result while both neighbours do. -/
theorem C10_witness :
    (runLoop sampleBehaviorOpenFail
        ([[97, 46, 105, 110]] ++ [98, 46, 105, 110] :: [[99, 46, 105, 110]])).2.1
      = (runLoop sampleBehaviorOpenFail [[97, 46, 105, 110]]).2.1
        ++ (runLoop sampleBehaviorOpenFail [[99, 46, 105, 110]]).2.1 ∧
    (runLoop sampleBehaviorOpenFail
        ([[97, 46, 105, 110]] ++ [98, 46, 105, 110] :: [[99, 46, 105, 110]])).2.2
      = (runLoop sampleBehaviorOpenFail [[97, 46, 105, 110]]).2.2
        ++ (if spawned (sampleBehaviorOpenFail [98, 46, 105, 110]) then [[98, 46, 105, 110]]
            else [])
        ++ (runLoop sampleBehaviorOpenFail [[99, 46, 105, 110]]).2.2 := by
  have h := C10_infra_error_case sampleBehaviorOpenFail
    [[97, 46, 105, 110]] [[99, 46, 105, 110]] [98, 46, 105, 110] (by decide)
  exact ⟨h.2.1, h.2.2.2⟩

end AojVerify
